import Mathlib

/-!
Verification of the aspen behavior-tree engine.

Shallow embedding of the core tick/reset protocol from the Rust sources:

* `Status`, `Status.isDone`           — src/status.rs
* `NodeState`, `nodeReset`, `nodeTick` — src/node.rs (`Node::reset`, `Node::tick`)
* `btTick`                             — src/bt.rs (`BehaviorTree::tick`)
* `parallelGo`, `parallelTick`         — src/std_nodes/parallel.rs
* `seqGo`, `sequenceTick`, `activeSeqGo`, `activeSequenceTick`
                                       — src/std_nodes/sequence.rs
* `statefulSelGo`, `statefulSelectorTick`, `selGo`, `selectorTick`
                                       — src/std_nodes/selector.rs
* `repeatTick`, `repeatReset`          — src/std_nodes/decorator/repeat.rs
* `untilFailTick`                      — src/std_nodes/decorator/until.rs
* `actionTickOutstanding`, `actionReset`, channel model
                                       — src/std_nodes/action.rs

Node internals (the Rust `Tickable` trait objects) are modelled by an
arbitrary state type `I` together with a tick function
`I → W → I × W × Status` (the world `W` is threaded explicitly because
Rust passes `&mut W`) and a reset function `I → I`.  To make the number
of internal tick/reset invocations observable, `Counted B` wraps an
arbitrary base internals type `B` with two event counters.
-/

namespace Aspen

/-- Status of a node (src/status.rs `enum Status`). -/
inductive Status where
  | initialized
  | running
  | succeeded
  | failed
deriving DecidableEq, Repr

/-- Embeds `Status::is_done` (src/status.rs): execution has finished, i.e. the
status is `Succeeded` or `Failed`. -/
def Status.isDone (s : Status) : Bool :=
  s = Status.succeeded || s = Status.failed

/-- The `Node` wrapper state (src/node.rs `struct Node`): the stored
status from the last tick plus the internal `Tickable` state.  The
display name is irrelevant to the tick protocol and omitted. -/
structure NodeState (I : Type) where
  status : Status
  internals : I
deriving DecidableEq, Repr

/-- Embeds `Node::reset` (src/node.rs lines 100-106): if the stored status is
not `Initialized`, set it to `Initialized` and reset the internals;
otherwise do nothing. -/
def nodeReset {I : Type} (ireset : I → I) (n : NodeState I) : NodeState I :=
  if n.status ≠ Status.initialized then
    { status := Status.initialized, internals := ireset n.internals }
  else n

/-- The reset-if-done step at the top of `Node::tick` (src/node.rs
lines 84-87). -/
def nodePre {I : Type} (ireset : I → I) (n : NodeState I) : NodeState I :=
  if n.status.isDone then nodeReset ireset n else n

/-- Embeds `Node::tick` (src/node.rs lines 83-93): reset the node if it has
already completed, then delegate to the internals, storing and
returning the resulting status. -/
def nodeTick {I W : Type} (itick : I → W → I × W × Status) (ireset : I → I)
    (n : NodeState I) (w : W) : NodeState I × W × Status :=
  let n1 := nodePre ireset n
  let r := itick n1.internals w
  (⟨r.2.2, r.1⟩, r.2.1, r.2.2)

/-- Internals instrumented with invocation counters, used to make
"ticked exactly once" / "reset exactly once" observable.  The base
behaviour `B` is arbitrary. -/
structure Counted (B : Type) where
  base : B
  ticks : Nat
  resets : Nat
deriving DecidableEq, Repr

/-- Tick of counted internals: behaves as the base tick and records the
invocation. -/
def countedTick {B W : Type} (btick : B → W → B × W × Status)
    (c : Counted B) (w : W) : Counted B × W × Status :=
  let r := btick c.base w
  (⟨r.1, c.ticks + 1, c.resets⟩, r.2.1, r.2.2)

/-- Reset of counted internals: behaves as the base reset and records
the invocation. -/
def countedReset {B : Type} (breset : B → B) (c : Counted B) : Counted B :=
  ⟨breset c.base, c.ticks, c.resets + 1⟩

/-- The stored status of the wrapper always equals the status returned
by the tick (src/node.rs line 91). -/
theorem nodeTick_fst_status {I W : Type} (itick : I → W → I × W × Status)
    (ireset : I → I) (n : NodeState I) (w : W) :
    (nodeTick itick ireset n w).1.status = (nodeTick itick ireset n w).2.2 := rfl

/-- C1: on a `Node` wrapper whose stored status is done, `tick` first
invokes the internals reset exactly once and then delegates to the
internals tick, storing and returning that result; if the stored status
is `Initialized` or `Running` it delegates directly with no reset.  The
internals tick is only ever invoked while the wrapper status is
`Initialized` or `Running` (the status at delegation time, `nodePre`,
is never done). -/
theorem node_tick_auto_reset {B W : Type}
    (btick : B → W → B × W × Status) (breset : B → B)
    (n : NodeState (Counted B)) (w : W) :
    ((nodePre (countedReset breset) n).status = Status.initialized ∨
      (nodePre (countedReset breset) n).status = Status.running) ∧
    (n.status.isDone = true →
      nodeTick (countedTick btick) (countedReset breset) n w =
        (let r := btick (breset n.internals.base) w
         (⟨r.2.2, ⟨r.1, n.internals.ticks + 1, n.internals.resets + 1⟩⟩,
           r.2.1, r.2.2))) ∧
    (n.status.isDone = false →
      nodeTick (countedTick btick) (countedReset breset) n w =
        (let r := btick n.internals.base w
         (⟨r.2.2, ⟨r.1, n.internals.ticks + 1, n.internals.resets⟩⟩,
           r.2.1, r.2.2))) := by
  obtain ⟨s, i⟩ := n
  cases s <;>
    simp [nodeTick, nodePre, nodeReset, countedTick, countedReset, Status.isDone]

/-- C1 witness: concrete instantiation of both cases of
`node_tick_auto_reset` (a completed node and a running node). -/
theorem node_tick_auto_reset_witness :
    (Status.failed.isDone = true ∧
      nodeTick (countedTick fun (_ : Unit) (_ : Unit) => ((), (), Status.succeeded))
          (countedReset fun b => b) ⟨Status.failed, ⟨(), 2, 0⟩⟩ () =
        (let r := (fun (_ : Unit) (_ : Unit) => ((), (), Status.succeeded)) ((fun b => b) ()) ()
         (⟨r.2.2, ⟨r.1, 2 + 1, 0 + 1⟩⟩, r.2.1, r.2.2))) ∧
    (Status.running.isDone = false ∧
      nodeTick (countedTick fun (_ : Unit) (_ : Unit) => ((), (), Status.succeeded))
          (countedReset fun b => b) ⟨Status.running, ⟨(), 2, 0⟩⟩ () =
        (let r := (fun (_ : Unit) (_ : Unit) => ((), (), Status.succeeded)) () ()
         (⟨r.2.2, ⟨r.1, 2 + 1, 0⟩⟩, r.2.1, r.2.2))) := by
  refine ⟨⟨by decide, ?_⟩, ⟨by decide, ?_⟩⟩
  · exact (node_tick_auto_reset (fun _ _ => ((), (), Status.succeeded)) (fun b => b)
      ⟨Status.failed, ⟨(), 2, 0⟩⟩ ()).2.1 (by decide)
  · exact (node_tick_auto_reset (fun _ _ => ((), (), Status.succeeded)) (fun b => b)
      ⟨Status.running, ⟨(), 2, 0⟩⟩ ()).2.2 (by decide)

/-- Embeds `BehaviorTree::tick` (src/bt.rs lines 33-40): if the root has
already completed, reset it and return `Initialized`; otherwise
delegate to the root node's tick. -/
def btTick {I W : Type} (itick : I → W → I × W × Status) (ireset : I → I)
    (root : NodeState I) (w : W) : NodeState I × W × Status :=
  if root.status.isDone then (nodeReset ireset root, w, Status.initialized)
  else nodeTick itick ireset root w

/-- C3 counterexample: with a root whose internals always succeed, after
the first tick (root status `Succeeded`, reachable as shown by the first
conjunct) the driver's tick returns `Initialized` while ticking the root
node directly returns `Succeeded`: the driver does not behave as the
root node's own tick protocol. -/
theorem bt_tick_not_node_tick :
    (nodeTick (countedTick fun (_ : Unit) (_ : Unit) => ((), (), Status.succeeded))
        (countedReset fun b => b) ⟨Status.initialized, ⟨(), 0, 0⟩⟩ ()).1 =
      ⟨Status.succeeded, ⟨(), 1, 0⟩⟩ ∧
    (btTick (countedTick fun (_ : Unit) (_ : Unit) => ((), (), Status.succeeded))
        (countedReset fun b => b) ⟨Status.succeeded, ⟨(), 1, 0⟩⟩ ()).2.2 =
      Status.initialized ∧
    (nodeTick (countedTick fun (_ : Unit) (_ : Unit) => ((), (), Status.succeeded))
        (countedReset fun b => b) ⟨Status.succeeded, ⟨(), 1, 0⟩⟩ ()).2.2 =
      Status.succeeded ∧
    Status.initialized ≠ Status.succeeded := by
  refine ⟨by decide, by decide, by decide, by decide⟩

/-- C3 (amended): `BehaviorTree::tick` delegates to the root node's tick
only while the root is not done; when the root's status is done it
resets the root (internals reset exactly once, internals tick not
invoked, world untouched) and returns `Initialized` instead of ticking,
so the driver inserts one `Initialized` status between completed runs
rather than reproducing the root node's direct tick sequence. -/
theorem bt_tick_reset_behavior {B W : Type}
    (btick : B → W → B × W × Status) (breset : B → B)
    (root : NodeState (Counted B)) (w : W) :
    (root.status.isDone = false →
      btTick (countedTick btick) (countedReset breset) root w =
        nodeTick (countedTick btick) (countedReset breset) root w) ∧
    (root.status.isDone = true →
      btTick (countedTick btick) (countedReset breset) root w =
        (⟨Status.initialized,
            ⟨breset root.internals.base, root.internals.ticks,
              root.internals.resets + 1⟩⟩, w, Status.initialized)) := by
  obtain ⟨s, i⟩ := root
  cases s <;> simp [btTick, nodeReset, countedReset, Status.isDone]

/-- C3 amended-claim witness: both cases of `bt_tick_reset_behavior` at
concrete inputs. -/
theorem bt_tick_reset_behavior_witness :
    (Status.running.isDone = false ∧
      btTick (countedTick fun (_ : Unit) (_ : Unit) => ((), (), Status.succeeded))
          (countedReset fun b => b) ⟨Status.running, ⟨(), 1, 0⟩⟩ () =
        nodeTick (countedTick fun (_ : Unit) (_ : Unit) => ((), (), Status.succeeded))
          (countedReset fun b => b) ⟨Status.running, ⟨(), 1, 0⟩⟩ ()) ∧
    (Status.succeeded.isDone = true ∧
      btTick (countedTick fun (_ : Unit) (_ : Unit) => ((), (), Status.succeeded))
          (countedReset fun b => b) ⟨Status.succeeded, ⟨(), 1, 0⟩⟩ () =
        (⟨Status.initialized, ⟨(fun b => b) (), 1, 0 + 1⟩⟩, (), Status.initialized)) := by
  refine ⟨⟨by decide, ?_⟩, ⟨by decide, ?_⟩⟩
  · exact (bt_tick_reset_behavior (fun _ _ => ((), (), Status.succeeded)) (fun b => b)
      ⟨Status.running, ⟨(), 1, 0⟩⟩ ()).1 (by decide)
  · exact (bt_tick_reset_behavior (fun _ _ => ((), (), Status.succeeded)) (fun b => b)
      ⟨Status.succeeded, ⟨(), 1, 0⟩⟩ ()).2 (by decide)

/-! ### Action node channel model (src/std_nodes/action.rs)

The rendezvous channel between the `Action` node and its worker thread
is modelled by the state the `Receiver` observes: an optional pending
message plus whether the sender (the worker) is still alive.  `try_recv`
and `recv` of std mpsc are total functions of that state; a `recv` call
that would block, and a panic, are explicit outcomes. -/

/-- State of the mpsc channel as seen by the `Action` node's receiver. -/
structure ChanState where
  pending : Option Status
  senderAlive : Bool
deriving DecidableEq, Repr

/-- Outcome of the non-blocking `try_recv` poll. -/
inductive TryRecvResult where
  | ok (s : Status)
  | empty
  | disconnected
deriving DecidableEq, Repr

/-- Embeds `Receiver::try_recv` on the modelled channel: a pending message is
returned; an empty channel reports `Empty` while the sender is alive and
`Disconnected` once the worker has exited without an unreceived message. -/
def tryRecvChan (c : ChanState) : TryRecvResult :=
  match c.pending with
  | some s => TryRecvResult.ok s
  | none => if c.senderAlive then TryRecvResult.empty else TryRecvResult.disconnected

/-- The channel after a successful receive: the pending message is consumed. -/
def consumeChan (c : ChanState) : ChanState := { c with pending := none }

/-- Embeds `Action::tick` (src/std_nodes/action.rs lines 121-139) in the case
where a worker is outstanding (`self.rx` is `Some`): poll the channel
without blocking; `Ok(Running)` drops the receiver and reports
`Running`; any other received status is reported with the receiver
kept; `Empty` reports `Running`; `Disconnected` panics
("Thread died before finishing"), modelled as `Except.error`. -/
def actionTickOutstanding (c : ChanState) :
    Except String (Option ChanState × Status) :=
  match tryRecvChan c with
  | TryRecvResult.ok Status.running => Except.ok (none, Status.running)
  | TryRecvResult.ok s => Except.ok (some (consumeChan c), s)
  | TryRecvResult.empty => Except.ok (some c, Status.running)
  | TryRecvResult.disconnected => Except.error "Thread died before finishing"

/-- Outcome of `Action::reset`. -/
inductive ResetOutcome where
  | returns (rx : Option ChanState)
  | blocked
  | panicked
deriving DecidableEq, Repr

/-- Embeds `Action::reset` (src/std_nodes/action.rs lines 145-154): with no
outstanding receiver it just clears `rx`; otherwise it calls
`rx.recv().unwrap()`, which returns a pending message, blocks while the
worker is still alive, and panics (`unwrap` of `Err(RecvError)`) when
the channel is empty and the worker has exited. -/
def actionReset (rx : Option ChanState) : ResetOutcome :=
  match rx with
  | none => ResetOutcome.returns none
  | some c =>
    match c.pending with
    | some _ => ResetOutcome.returns none
    | none =>
      if c.senderAlive then ResetOutcome.blocked else ResetOutcome.panicked

/-- C2: evaluation of the code at the failing input.  A tick that
receives a done status (`Ok(Succeeded)`) keeps the receiver
(`reset = false` in the source), so after the worker exits the node is
in a reachable state with `rx = Some` over an empty, disconnected
channel; calling `reset` there executes `rx.recv().unwrap()` and
panics instead of returning normally. -/
theorem action_reset_after_delivery_panics :
    actionTickOutstanding ⟨some Status.succeeded, true⟩ =
      Except.ok (some ⟨none, true⟩, Status.succeeded) ∧
    actionReset (some ⟨none, false⟩) = ResetOutcome.panicked := by
  refine ⟨rfl, rfl⟩

/-- C10: while a worker is outstanding, a tick that finds the channel
empty returns `Running` (and keeps the receiver) without blocking, and a
tick that finds the worker disconnected without having sent a result
panics — it never returns any status, in particular never `Failed`. -/
theorem action_tick_poll_contract (c : ChanState) :
    (tryRecvChan c = TryRecvResult.empty →
      actionTickOutstanding c = Except.ok (some c, Status.running)) ∧
    (tryRecvChan c = TryRecvResult.disconnected →
      actionTickOutstanding c = Except.error "Thread died before finishing" ∧
        ∀ out, actionTickOutstanding c ≠ Except.ok out) := by
  obtain ⟨p, a⟩ := c
  cases p <;> cases a <;> simp [tryRecvChan, actionTickOutstanding]

/-- C10 witness: both poll cases at concrete channel states. -/
theorem action_tick_poll_contract_witness :
    (tryRecvChan ⟨none, true⟩ = TryRecvResult.empty ∧
      actionTickOutstanding ⟨none, true⟩ =
        Except.ok (some ⟨none, true⟩, Status.running)) ∧
    (tryRecvChan ⟨none, false⟩ = TryRecvResult.disconnected ∧
      actionTickOutstanding ⟨none, false⟩ =
        Except.error "Thread died before finishing") := by
  refine ⟨⟨by decide, ?_⟩, ⟨by decide, ?_⟩⟩
  · exact (action_tick_poll_contract ⟨none, true⟩).1 (by decide)
  · exact ((action_tick_poll_contract ⟨none, false⟩).2 (by decide)).1

/-! ### Parallel (src/std_nodes/parallel.rs) -/

/-- Embeds `Parallel` internals (src/std_nodes/parallel.rs `struct Parallel`):
the child nodes and the number of successes required. -/
structure ParallelState (C : Type) where
  children : List (NodeState C)
  requiredSuccesses : Nat
deriving DecidableEq, Repr

/-- The child loop of `Parallel::tick` (src/std_nodes/parallel.rs lines
125-140): each already-done child keeps its status and is not ticked,
every other child is ticked; the returned pair of counters tallies
`successes` and `failures` over the per-child statuses. -/
def parallelGo {C W : Type} (ctick : C → W → C × W × Status) (creset : C → C) :
    List (NodeState C) → W → List (NodeState C) × W × Nat × Nat
  | [], w => ([], w, 0, 0)
  | c :: rest, w =>
    let r := if c.status.isDone then (c, w, c.status) else nodeTick ctick creset c w
    let rr := parallelGo ctick creset rest r.2.1
    (r.1 :: rr.1, rr.2.1,
      rr.2.2.1 + (if r.2.2 = Status.succeeded then 1 else 0),
      rr.2.2.2 + (if r.2.2 = Status.failed then 1 else 0))

/-- Embeds `Parallel::tick` (src/std_nodes/parallel.rs lines 120-156): run the
child loop, then succeed when enough children succeeded, fail when the
failures make the threshold unreachable, and report running otherwise. -/
def parallelTick {C W : Type} (ctick : C → W → C × W × Status) (creset : C → C)
    (st : ParallelState C) (w : W) : ParallelState C × W × Status :=
  let r := parallelGo ctick creset st.children w
  let s :=
    if st.requiredSuccesses ≤ r.2.2.1 then Status.succeeded
    else if st.children.length < r.2.2.2 + st.requiredSuccesses then Status.failed
    else Status.running
  (⟨r.1, st.requiredSuccesses⟩, r.2.1, s)

/-- Relation between a child before and after one `Parallel` tick: a
done child is untouched, any other child had its internals ticked
exactly once and not reset. -/
def tickedOnceRel {B : Type} (a b : NodeState (Counted B)) : Prop :=
  (a.status.isDone = true → b = a) ∧
  (a.status.isDone = false →
    b.internals.ticks = a.internals.ticks + 1 ∧
      b.internals.resets = a.internals.resets)

theorem parallelGo_forall2 {B W : Type} (btick : B → W → B × W × Status)
    (breset : B → B) :
    ∀ (cs : List (NodeState (Counted B))) (w : W),
      List.Forall₂ tickedOnceRel cs
        (parallelGo (countedTick btick) (countedReset breset) cs w).1 := by
  intro cs
  induction cs with
  | nil => intro w; simp [parallelGo]
  | cons c rest ih =>
    intro w
    by_cases h : c.status.isDone
    · refine List.Forall₂.cons ?_ (by simpa [parallelGo, h] using ih w)
      exact ⟨fun _ => by simp [parallelGo, h], fun hc => by simp [h] at hc⟩
    · have hized : ¬(c.status = Status.succeeded ∨ c.status = Status.failed) := by
        simpa [Status.isDone] using h
      refine List.Forall₂.cons ?_ ?_
      · refine ⟨fun hc => absurd hc h, fun _ => ?_⟩
        simp [nodeTick, nodePre, h, countedTick]
      · simpa [parallelGo, h] using ih _

theorem parallelGo_counts {B W : Type} (btick : B → W → B × W × Status)
    (breset : B → B) :
    ∀ (cs : List (NodeState (Counted B))) (w : W),
      (parallelGo (countedTick btick) (countedReset breset) cs w).2.2.1 =
        List.countP (fun n => decide (n.status = Status.succeeded))
          (parallelGo (countedTick btick) (countedReset breset) cs w).1 ∧
      (parallelGo (countedTick btick) (countedReset breset) cs w).2.2.2 =
        List.countP (fun n => decide (n.status = Status.failed))
          (parallelGo (countedTick btick) (countedReset breset) cs w).1 := by
  intro cs
  induction cs with
  | nil => intro w; simp [parallelGo]
  | cons c rest ih =>
    intro w
    by_cases h : c.status.isDone
    · simpa [parallelGo, h, List.countP_cons] using ih w
    · have hst :
          (nodeTick (countedTick btick) (countedReset breset) c w).1.status =
            (nodeTick (countedTick btick) (countedReset breset) c w).2.2 := rfl
      simp [parallelGo, h, List.countP_cons, (ih _).1, (ih _).2, hst]

/-- C4: on every tick of a `Parallel` node with required-success count
`k` over `n` children, each not-yet-done child is ticked exactly once
(and not reset) while each already-done child is untouched; with the
successes and failures tallied over all children after the tick, the
node succeeds iff `successes ≥ k`, otherwise fails iff
`failures + k > n`, and otherwise is running; in particular `k = 0`
always yields `Succeeded` and `k > n` always yields `Failed`. -/
theorem parallel_tick_contract {B W : Type} (btick : B → W → B × W × Status)
    (breset : B → B) (st : ParallelState (Counted B)) (w : W) :
    List.Forall₂ tickedOnceRel st.children
      (parallelTick (countedTick btick) (countedReset breset) st w).1.children ∧
    ((parallelTick (countedTick btick) (countedReset breset) st w).2.2 =
        Status.succeeded ↔
      st.requiredSuccesses ≤
        List.countP (fun n => decide (n.status = Status.succeeded))
          (parallelTick (countedTick btick) (countedReset breset) st w).1.children) ∧
    (List.countP (fun n => decide (n.status = Status.succeeded))
          (parallelTick (countedTick btick) (countedReset breset) st w).1.children <
        st.requiredSuccesses →
      ((parallelTick (countedTick btick) (countedReset breset) st w).2.2 =
          Status.failed ↔
        st.children.length <
          List.countP (fun n => decide (n.status = Status.failed))
              (parallelTick (countedTick btick) (countedReset breset) st w).1.children +
            st.requiredSuccesses)) ∧
    (List.countP (fun n => decide (n.status = Status.succeeded))
          (parallelTick (countedTick btick) (countedReset breset) st w).1.children <
        st.requiredSuccesses →
      List.countP (fun n => decide (n.status = Status.failed))
            (parallelTick (countedTick btick) (countedReset breset) st w).1.children +
          st.requiredSuccesses ≤ st.children.length →
      (parallelTick (countedTick btick) (countedReset breset) st w).2.2 =
        Status.running) ∧
    (st.requiredSuccesses = 0 →
      (parallelTick (countedTick btick) (countedReset breset) st w).2.2 =
        Status.succeeded) ∧
    (st.children.length < st.requiredSuccesses →
      (parallelTick (countedTick btick) (countedReset breset) st w).2.2 =
        Status.failed) := by
  obtain ⟨cs, k⟩ := st
  have hf2 := parallelGo_forall2 btick breset cs w
  have hc := parallelGo_counts btick breset cs w
  have hlen : (parallelGo (countedTick btick) (countedReset breset) cs w).1.length =
      cs.length := (List.Forall₂.length_eq hf2).symm
  refine ⟨hf2, ?_⟩
  simp only [parallelTick, ← hc.1, ← hc.2]
  set sc := (parallelGo (countedTick btick) (countedReset breset) cs w).2.2.1 with hsc
  set fc := (parallelGo (countedTick btick) (countedReset breset) cs w).2.2.2 with hfc
  by_cases h1 : k ≤ sc
  · refine ⟨by simp [h1], ?_, ?_, ?_, ?_⟩
    · intro hlt; omega
    · intro hlt; omega
    · intro _; simp [h1]
    · intro hn
      have hone : sc ≤ cs.length := by
        rw [hc.1, ← hlen]
        exact List.countP_le_length _
      omega
  · by_cases h2 : cs.length < fc + k
    · refine ⟨by simp [h1, h2], ?_, ?_, ?_, ?_⟩
      · intro _; simp [h1, h2]
      · intro _ hle; omega
      · intro hk; omega
      · intro _; simp [h1, h2]
    · refine ⟨by simp [h1, h2], ?_, ?_, ?_, ?_⟩
      · intro _; simp [h1, h2]
      · intro _ _; simp [h1, h2]
      · intro hk; omega
      · intro hn; omega

/-- C4 witness: a single running child with threshold 2 (so `k > n`)
makes the node fail on the first tick. -/
theorem parallel_tick_contract_witness :
    (1 : Nat) < 2 ∧
    (parallelTick (countedTick fun (_ : Unit) (_ : Unit) => ((), (), Status.running))
        (countedReset fun b => b)
        ⟨[⟨Status.running, ⟨(), 0, 0⟩⟩], 2⟩ ()).2.2 = Status.failed := by
  refine ⟨by decide, ?_⟩
  exact (parallel_tick_contract (fun _ _ => ((), (), Status.running)) (fun b => b)
    ⟨[⟨Status.running, ⟨(), 0, 0⟩⟩], 2⟩ ()).2.2.2.2.2 (by decide)

/-! ### Sequence and ActiveSequence (src/std_nodes/sequence.rs) -/

/-- Embeds `Sequence` internals (src/std_nodes/sequence.rs `struct Sequence`):
the children plus the resume index `next_child`. -/
structure SeqState (C : Type) where
  children : List (NodeState C)
  nextChild : Nat
deriving DecidableEq, Repr

/-- The `while` loop of `Sequence::tick` (src/std_nodes/sequence.rs
lines 266-273), expressed as a scan over the not-yet-visited suffix of
the children: tick the current child; on `Succeeded` advance and
continue, on a done non-`Succeeded` status advance and stop, otherwise
stop without advancing.  Returns the updated suffix, the world, the
final status and how far `next_child` advanced. -/
def seqGo {C W : Type} (ctick : C → W → C × W × Status) (creset : C → C) :
    List (NodeState C) → W → List (NodeState C) × W × Status × Nat
  | [], w => ([], w, Status.succeeded, 0)
  | c :: rest, w =>
    let r := nodeTick ctick creset c w
    if r.2.2 = Status.succeeded then
      let rr := seqGo ctick creset rest r.2.1
      (r.1 :: rr.1, rr.2.1, rr.2.2.1, rr.2.2.2 + 1)
    else if r.2.2.isDone then (r.1 :: rest, r.2.1, r.2.2, 1)
    else (r.1 :: rest, r.2.1, r.2.2, 0)

/-- Embeds `Sequence::tick` (src/std_nodes/sequence.rs lines 264-276): run the
loop from `next_child`, leaving the children before `next_child`
untouched. -/
def sequenceTick {C W : Type} (ctick : C → W → C × W × Status) (creset : C → C)
    (st : SeqState C) (w : W) : SeqState C × W × Status :=
  let r := seqGo ctick creset (st.children.drop st.nextChild) w
  (⟨st.children.take st.nextChild ++ r.1, st.nextChild + r.2.2.2⟩, r.2.1, r.2.2.1)

/-- The `for` loop of `ActiveSequence::tick` (src/std_nodes/sequence.rs
lines 118-125): while the accumulated status is `Succeeded` tick the
next child and continue with its status; afterwards reset every
remaining child. -/
def activeSeqGo {C W : Type} (ctick : C → W → C × W × Status) (creset : C → C) :
    List (NodeState C) → Status → W → List (NodeState C) × W × Status
  | [], ret, w => ([], w, ret)
  | c :: rest, ret, w =>
    if ret = Status.succeeded then
      let r := nodeTick ctick creset c w
      let rr := activeSeqGo ctick creset rest r.2.2 r.2.1
      (r.1 :: rr.1, rr.2.1, rr.2.2)
    else
      let rr := activeSeqGo ctick creset rest ret w
      (nodeReset creset c :: rr.1, rr.2.1, rr.2.2)

/-- Embeds `ActiveSequence::tick` (src/std_nodes/sequence.rs lines 116-129):
the loop starts with `ret_status = Succeeded`. -/
def activeSequenceTick {C W : Type} (ctick : C → W → C × W × Status)
    (creset : C → C) (cs : List (NodeState C)) (w : W) :
    List (NodeState C) × W × Status :=
  activeSeqGo ctick creset cs Status.succeeded w

/-- One in-order scan step ticked the first `m` children exactly once;
all of the first `m` but the last returned the continue status `cont`,
the `m`-th returned the non-`cont` status that the scan reports (or
every child returned `cont` and the scan reports `cont`); the children
after the `m`-th are related to their previous state by `tailRel`
(untouched, or reset but not ticked). -/
def scanSpec {B : Type} (cont : Status)
    (tailRel : NodeState (Counted B) → NodeState (Counted B) → Prop)
    (cs cs2 : List (NodeState (Counted B))) (s : Status) : Prop :=
  ∃ m, m ≤ cs.length ∧ cs2.length = cs.length ∧
    List.Forall₂ (fun a b => b.internals.ticks = a.internals.ticks + 1)
      (cs.take m) (cs2.take m) ∧
    List.Forall₂ tailRel (cs.drop m) (cs2.drop m) ∧
    ((s = cont ∧ m = cs.length ∧
        (cs2.take m).map (fun n => n.status) = List.replicate m cont) ∨
      (s ≠ cont ∧ 1 ≤ m ∧
        (cs2.take m).map (fun n => n.status) =
          List.replicate (m - 1) cont ++ [s]))

/-- A node wrapper tick increments the instrumented tick counter by
exactly one (whether or not an auto-reset happened first). -/
theorem nodeTick_counted_ticks {B W : Type} (btick : B → W → B × W × Status)
    (breset : B → B) (n : NodeState (Counted B)) (w : W) :
    (nodeTick (countedTick btick) (countedReset breset) n w).1.internals.ticks =
      n.internals.ticks + 1 := by
  obtain ⟨s, i⟩ := n
  cases s <;>
    simp [nodeTick, nodePre, nodeReset, countedTick, countedReset, Status.isDone]

/-- A node wrapper reset leaves the instrumented tick counter
unchanged. -/
theorem nodeReset_counted_ticks {B : Type} (breset : B → B)
    (n : NodeState (Counted B)) :
    (nodeReset (countedReset breset) n).internals.ticks = n.internals.ticks := by
  obtain ⟨s, i⟩ := n
  cases s <;> simp [nodeReset, countedReset]

theorem take_append_length {α : Type} :
    ∀ (A B : List α), (A ++ B).take A.length = A := by
  intro A B
  induction A with
  | nil => simp
  | cons a A ih => simp [ih]

theorem drop_append_length {α : Type} :
    ∀ (A B : List α), (A ++ B).drop A.length = B := by
  intro A B
  induction A with
  | nil => simp
  | cons a A ih => simp [ih]

theorem seqGo_scan {B W : Type} (btick : B → W → B × W × Status)
    (breset : B → B) :
    ∀ (cs : List (NodeState (Counted B))) (w : W),
      ∃ cs2 w2 s k,
        seqGo (countedTick btick) (countedReset breset) cs w = (cs2, w2, s, k) ∧
        scanSpec Status.succeeded (fun a b => b = a) cs cs2 s := by
  intro cs
  induction cs with
  | nil =>
    intro w
    exact ⟨[], w, Status.succeeded, 0, rfl,
      0, by simp, by simp, by simp, by simp, Or.inl ⟨rfl, rfl, by simp⟩⟩
  | cons c rest ih =>
    intro w
    rcases hE : nodeTick (countedTick btick) (countedReset breset) c w
      with ⟨c1, w1, s1⟩
    have hticks : c1.internals.ticks = c.internals.ticks + 1 := by
      have := nodeTick_counted_ticks btick breset c w
      rw [hE] at this; exact this
    have hstat : c1.status = s1 := by
      have := nodeTick_fst_status (countedTick btick) (countedReset breset) c w
      rw [hE] at this; exact this
    by_cases hs : s1 = Status.succeeded
    · obtain ⟨cs2, w2, s, k, heq, m, hm, hlen, htake, hdrop, hlast⟩ := ih w1
      refine ⟨c1 :: cs2, w2, s, k + 1, ?_, m + 1, ?_, ?_, ?_, ?_, ?_⟩
      · simp [seqGo, hE, hs, heq]
      · simpa using Nat.succ_le_succ hm
      · simp [hlen]
      · simp only [List.take_succ_cons]
        exact List.Forall₂.cons hticks htake
      · simp only [List.drop_succ_cons]
        exact hdrop
      · rcases hlast with ⟨h1, h2, h3⟩ | ⟨h1, h2, h3⟩
        · exact Or.inl ⟨h1, by simp [h2], by simp [h3, hstat, hs, List.replicate_succ]⟩
        · refine Or.inr ⟨h1, by omega, ?_⟩
          have hm1 : m + 1 - 1 = m := by omega
          have hm2 : m - 1 + 1 = m := by omega
          rw [List.take_succ_cons, List.map_cons, hstat, hs, h3, hm1,
            ← List.cons_append, ← List.replicate_succ, hm2]
    · have hgo : ∃ k, seqGo (countedTick btick) (countedReset breset) (c :: rest) w =
          (c1 :: rest, w1, s1, k) := by
        by_cases hd : s1.isDone
        · exact ⟨1, by simp [seqGo, hE, hs, hd]⟩
        · exact ⟨0, by simp [seqGo, hE, hs, hd]⟩
      obtain ⟨k, hk⟩ := hgo
      refine ⟨c1 :: rest, w1, s1, k, hk, 1, by simp, by simp, ?_, ?_, ?_⟩
      · simp only [List.take_succ_cons, List.take_zero]
        exact List.Forall₂.cons hticks List.Forall₂.nil
      · simp [List.forall₂_same]
      · exact Or.inr ⟨hs, le_refl 1, by simp [hstat]⟩

theorem activeSeqGo_pass {C W : Type} (ctick : C → W → C × W × Status)
    (creset : C → C) :
    ∀ (cs : List (NodeState C)) (ret : Status) (w : W),
      ret ≠ Status.succeeded →
      activeSeqGo ctick creset cs ret w = (cs.map (nodeReset creset), w, ret) := by
  intro cs
  induction cs with
  | nil => intro ret w _; simp [activeSeqGo]
  | cons c rest ih =>
    intro ret w h
    simp [activeSeqGo, h, ih ret w h]

theorem activeSeqGo_scan {B W : Type} (btick : B → W → B × W × Status)
    (breset : B → B) :
    ∀ (cs : List (NodeState (Counted B))) (w : W),
      ∃ cs2 w2 s,
        activeSeqGo (countedTick btick) (countedReset breset) cs
          Status.succeeded w = (cs2, w2, s) ∧
        scanSpec Status.succeeded
          (fun a b => b = nodeReset (countedReset breset) a ∧
            b.internals.ticks = a.internals.ticks) cs cs2 s := by
  intro cs
  induction cs with
  | nil =>
    intro w
    exact ⟨[], w, Status.succeeded, rfl,
      0, by simp, by simp, by simp, by simp, Or.inl ⟨rfl, rfl, by simp⟩⟩
  | cons c rest ih =>
    intro w
    rcases hE : nodeTick (countedTick btick) (countedReset breset) c w
      with ⟨c1, w1, s1⟩
    have hticks : c1.internals.ticks = c.internals.ticks + 1 := by
      have := nodeTick_counted_ticks btick breset c w
      rw [hE] at this; exact this
    have hstat : c1.status = s1 := by
      have := nodeTick_fst_status (countedTick btick) (countedReset breset) c w
      rw [hE] at this; exact this
    by_cases hs : s1 = Status.succeeded
    · obtain ⟨cs2, w2, s, heq, m, hm, hlen, htake, hdrop, hlast⟩ := ih w1
      refine ⟨c1 :: cs2, w2, s, ?_, m + 1, ?_, ?_, ?_, ?_, ?_⟩
      · simp [activeSeqGo, hE, hs, heq]
      · simpa using Nat.succ_le_succ hm
      · simp [hlen]
      · simp only [List.take_succ_cons]
        exact List.Forall₂.cons hticks htake
      · simp only [List.drop_succ_cons]
        exact hdrop
      · rcases hlast with ⟨h1, h2, h3⟩ | ⟨h1, h2, h3⟩
        · exact Or.inl ⟨h1, by simp [h2], by simp [h3, hstat, hs, List.replicate_succ]⟩
        · refine Or.inr ⟨h1, by omega, ?_⟩
          have hm1 : m + 1 - 1 = m := by omega
          have hm2 : m - 1 + 1 = m := by omega
          rw [List.take_succ_cons, List.map_cons, hstat, hs, h3, hm1,
            ← List.cons_append, ← List.replicate_succ, hm2]
    · have hpass := activeSeqGo_pass (countedTick btick) (countedReset breset)
        rest s1 w1 hs
      refine ⟨c1 :: rest.map (nodeReset (countedReset breset)), w1, s1, ?_,
        1, by simp, by simp, ?_, ?_, ?_⟩
      · simp [activeSeqGo, hE, hpass]
      · simp only [List.take_succ_cons, List.take_zero]
        exact List.Forall₂.cons hticks List.Forall₂.nil
      · simp only [List.drop_succ_cons, List.drop_zero]
        rw [List.forall₂_map_right_iff]
        rw [List.forall₂_same]
        intro a _
        exact ⟨rfl, nodeReset_counted_ticks breset a⟩
      · exact Or.inr ⟨hs, le_refl 1, by simp [hstat]⟩

theorem take_append_take {α : Type} (cs B : List α) (n : Nat)
    (h : n ≤ cs.length) :
    (cs.take n ++ B).take n = cs.take n ∧ (cs.take n ++ B).drop n = B := by
  have hA : (cs.take n).length = n := by
    rw [List.length_take]; omega
  constructor
  · have ht := take_append_length (cs.take n) B
    rw [hA] at ht; exact ht
  · have hd := drop_append_length (cs.take n) B
    rw [hA] at hd; exact hd

/-- C5: on any tick of a `Sequence` (from its resume index, with the
already-completed children to the left untouched) and of an
`ActiveSequence` (from its first child), the children under scan are
ticked in declaration order, each exactly once, while each returns
`Succeeded`; the first child returning a non-`Succeeded` status ends the
scan and that status is returned, with every later child unticked
(`Sequence` leaves them untouched, `ActiveSequence` only resets them);
if every scanned child succeeds the node succeeds. -/
theorem sequence_scan_contract {B W : Type} (btick : B → W → B × W × Status)
    (breset : B → B) :
    (∀ (st : SeqState (Counted B)) (w : W),
      ∃ st2 w2 s,
        sequenceTick (countedTick btick) (countedReset breset) st w =
          (st2, w2, s) ∧
        st2.children.take st.nextChild = st.children.take st.nextChild ∧
        scanSpec Status.succeeded (fun a b => b = a)
          (st.children.drop st.nextChild) (st2.children.drop st.nextChild) s) ∧
    (∀ (cs : List (NodeState (Counted B))) (w : W),
      ∃ cs2 w2 s,
        activeSequenceTick (countedTick btick) (countedReset breset) cs w =
          (cs2, w2, s) ∧
        scanSpec Status.succeeded
          (fun a b => b = nodeReset (countedReset breset) a ∧
            b.internals.ticks = a.internals.ticks) cs cs2 s) := by
  constructor
  · intro st w
    obtain ⟨cs2, w2, s, k, heq, hspec⟩ :=
      seqGo_scan btick breset (st.children.drop st.nextChild) w
    refine ⟨⟨st.children.take st.nextChild ++ cs2, st.nextChild + k⟩, w2, s,
      by simp [sequenceTick, heq], ?_, ?_⟩
    · by_cases hn : st.nextChild ≤ st.children.length
      · exact (take_append_take st.children cs2 st.nextChild hn).1
      · have hcs2 : cs2 = [] := by
          have hdrop : st.children.drop st.nextChild = [] :=
            List.drop_of_length_le (by omega)
          rw [hdrop] at heq
          simpa [seqGo] using congrArg (fun p => p.1) heq
        simp [hcs2, List.take_take]
    · by_cases hn : st.nextChild ≤ st.children.length
      · rw [(take_append_take st.children cs2 st.nextChild hn).2]
        exact hspec
      · have hdrop : st.children.drop st.nextChild = [] :=
          List.drop_of_length_le (by omega)
        have hcs2 : cs2 = [] := by
          rw [hdrop] at heq
          simpa [seqGo] using congrArg (fun p => p.1) heq
        subst hcs2
        have hres : (st.children.take st.nextChild ++
            ([] : List (NodeState (Counted B)))).drop st.nextChild = [] := by
          rw [List.append_nil]
          exact List.drop_of_length_le (by rw [List.length_take]; omega)
        rw [hres]
        exact hspec
  · intro cs w
    obtain ⟨cs2, w2, s, heq, hspec⟩ := activeSeqGo_scan btick breset cs w
    exact ⟨cs2, w2, s, heq, hspec⟩

/-- C5 witness: the `Sequence` part of `sequence_scan_contract` applied
to the sentinel example — first child ticks to `Succeeded`, second to
`Failed`, third is the sentinel. -/
theorem sequence_scan_contract_witness :
    ∃ st2 w2 s,
      sequenceTick (countedTick fun (b : Status) (_ : Unit) => (b, (), b))
          (countedReset fun b => b)
          ⟨[⟨Status.initialized, ⟨Status.succeeded, 0, 0⟩⟩,
            ⟨Status.initialized, ⟨Status.failed, 0, 0⟩⟩,
            ⟨Status.initialized, ⟨Status.running, 7, 7⟩⟩], 0⟩ () =
        (st2, w2, s) ∧
      st2.children.take 0 =
        List.take 0
          [⟨Status.initialized, ⟨Status.succeeded, 0, 0⟩⟩,
            ⟨Status.initialized, ⟨Status.failed, 0, 0⟩⟩,
            ⟨Status.initialized, ⟨Status.running, 7, 7⟩⟩] ∧
      scanSpec Status.succeeded (fun a b => b = a)
        (List.drop 0
          [⟨Status.initialized, ⟨Status.succeeded, 0, 0⟩⟩,
            ⟨Status.initialized, ⟨Status.failed, 0, 0⟩⟩,
            ⟨Status.initialized, ⟨Status.running, 7, 7⟩⟩])
        (st2.children.drop 0) s :=
  (sequence_scan_contract (fun (b : Status) (_ : Unit) => (b, (), b))
    (fun b => b)).1
    ⟨[⟨Status.initialized, ⟨Status.succeeded, 0, 0⟩⟩,
      ⟨Status.initialized, ⟨Status.failed, 0, 0⟩⟩,
      ⟨Status.initialized, ⟨Status.running, 7, 7⟩⟩], 0⟩ ()

/-! ### Selector and StatefulSelector (src/std_nodes/selector.rs) -/

/-- Embeds `StatefulSelector` internals (src/std_nodes/selector.rs
`struct StatefulSelector`): the children plus the resume index. -/
structure StatefulSelState (C : Type) where
  children : List (NodeState C)
  nextChild : Nat
deriving DecidableEq, Repr

/-- The `for` loop of `Selector::tick` (src/std_nodes/selector.rs lines
104-114): while the accumulated status is `Failed` tick the next child
and continue with its status; afterwards reset every remaining child. -/
def selGo {C W : Type} (ctick : C → W → C × W × Status) (creset : C → C) :
    List (NodeState C) → Status → W → List (NodeState C) × W × Status
  | [], ret, w => ([], w, ret)
  | c :: rest, ret, w =>
    if ret = Status.failed then
      let r := nodeTick ctick creset c w
      let rr := selGo ctick creset rest r.2.2 r.2.1
      (r.1 :: rr.1, rr.2.1, rr.2.2)
    else
      let rr := selGo ctick creset rest ret w
      (nodeReset creset c :: rr.1, rr.2.1, rr.2.2)

/-- Embeds `Selector::tick` (src/std_nodes/selector.rs lines 102-118): the loop
starts with `ret_status = Failed`. -/
def selectorTick {C W : Type} (ctick : C → W → C × W × Status)
    (creset : C → C) (cs : List (NodeState C)) (w : W) :
    List (NodeState C) × W × Status :=
  selGo ctick creset cs Status.failed w

/-- The `while` loop of `StatefulSelector::tick`
(src/std_nodes/selector.rs lines 262-269) as a scan over the suffix
from `next_child`: tick the current child; on `Failed` advance and
continue, on a done non-`Failed` status advance and stop, otherwise
stop without advancing. -/
def statefulSelGo {C W : Type} (ctick : C → W → C × W × Status)
    (creset : C → C) :
    List (NodeState C) → W → List (NodeState C) × W × Status × Nat
  | [], w => ([], w, Status.failed, 0)
  | c :: rest, w =>
    let r := nodeTick ctick creset c w
    if r.2.2 = Status.failed then
      let rr := statefulSelGo ctick creset rest r.2.1
      (r.1 :: rr.1, rr.2.1, rr.2.2.1, rr.2.2.2 + 1)
    else if r.2.2.isDone then (r.1 :: rest, r.2.1, r.2.2, 1)
    else (r.1 :: rest, r.2.1, r.2.2, 0)

/-- Embeds `StatefulSelector::tick` (src/std_nodes/selector.rs lines 260-272). -/
def statefulSelectorTick {C W : Type} (ctick : C → W → C × W × Status)
    (creset : C → C) (st : StatefulSelState C) (w : W) :
    StatefulSelState C × W × Status :=
  let r := statefulSelGo ctick creset (st.children.drop st.nextChild) w
  (⟨st.children.take st.nextChild ++ r.1, st.nextChild + r.2.2.2⟩, r.2.1, r.2.2.1)

theorem selGo_pass {C W : Type} (ctick : C → W → C × W × Status)
    (creset : C → C) :
    ∀ (cs : List (NodeState C)) (ret : Status) (w : W),
      ret ≠ Status.failed →
      selGo ctick creset cs ret w = (cs.map (nodeReset creset), w, ret) := by
  intro cs
  induction cs with
  | nil => intro ret w _; simp [selGo]
  | cons c rest ih =>
    intro ret w h
    simp [selGo, h, ih ret w h]

theorem selGo_scan {B W : Type} (btick : B → W → B × W × Status)
    (breset : B → B) :
    ∀ (cs : List (NodeState (Counted B))) (w : W),
      ∃ cs2 w2 s,
        selGo (countedTick btick) (countedReset breset) cs Status.failed w =
          (cs2, w2, s) ∧
        scanSpec Status.failed
          (fun a b => b = nodeReset (countedReset breset) a ∧
            b.internals.ticks = a.internals.ticks) cs cs2 s := by
  intro cs
  induction cs with
  | nil =>
    intro w
    exact ⟨[], w, Status.failed, rfl,
      0, by simp, by simp, by simp, by simp, Or.inl ⟨rfl, rfl, by simp⟩⟩
  | cons c rest ih =>
    intro w
    rcases hE : nodeTick (countedTick btick) (countedReset breset) c w
      with ⟨c1, w1, s1⟩
    have hticks : c1.internals.ticks = c.internals.ticks + 1 := by
      have := nodeTick_counted_ticks btick breset c w
      rw [hE] at this; exact this
    have hstat : c1.status = s1 := by
      have := nodeTick_fst_status (countedTick btick) (countedReset breset) c w
      rw [hE] at this; exact this
    by_cases hs : s1 = Status.failed
    · obtain ⟨cs2, w2, s, heq, m, hm, hlen, htake, hdrop, hlast⟩ := ih w1
      refine ⟨c1 :: cs2, w2, s, ?_, m + 1, ?_, ?_, ?_, ?_, ?_⟩
      · simp [selGo, hE, hs, heq]
      · simpa using Nat.succ_le_succ hm
      · simp [hlen]
      · simp only [List.take_succ_cons]
        exact List.Forall₂.cons hticks htake
      · simp only [List.drop_succ_cons]
        exact hdrop
      · rcases hlast with ⟨h1, h2, h3⟩ | ⟨h1, h2, h3⟩
        · exact Or.inl ⟨h1, by simp [h2], by simp [h3, hstat, hs, List.replicate_succ]⟩
        · refine Or.inr ⟨h1, by omega, ?_⟩
          have hm1 : m + 1 - 1 = m := by omega
          have hm2 : m - 1 + 1 = m := by omega
          rw [List.take_succ_cons, List.map_cons, hstat, hs, h3, hm1,
            ← List.cons_append, ← List.replicate_succ, hm2]
    · have hpass := selGo_pass (countedTick btick) (countedReset breset)
        rest s1 w1 hs
      refine ⟨c1 :: rest.map (nodeReset (countedReset breset)), w1, s1, ?_,
        1, by simp, by simp, ?_, ?_, ?_⟩
      · simp [selGo, hE, hpass]
      · simp only [List.take_succ_cons, List.take_zero]
        exact List.Forall₂.cons hticks List.Forall₂.nil
      · simp only [List.drop_succ_cons, List.drop_zero]
        rw [List.forall₂_map_right_iff]
        rw [List.forall₂_same]
        intro a _
        exact ⟨rfl, nodeReset_counted_ticks breset a⟩
      · exact Or.inr ⟨hs, le_refl 1, by simp [hstat]⟩

theorem statefulSelGo_scan {B W : Type} (btick : B → W → B × W × Status)
    (breset : B → B) :
    ∀ (cs : List (NodeState (Counted B))) (w : W),
      ∃ cs2 w2 s k,
        statefulSelGo (countedTick btick) (countedReset breset) cs w =
          (cs2, w2, s, k) ∧
        scanSpec Status.failed (fun a b => b = a) cs cs2 s := by
  intro cs
  induction cs with
  | nil =>
    intro w
    exact ⟨[], w, Status.failed, 0, rfl,
      0, by simp, by simp, by simp, by simp, Or.inl ⟨rfl, rfl, by simp⟩⟩
  | cons c rest ih =>
    intro w
    rcases hE : nodeTick (countedTick btick) (countedReset breset) c w
      with ⟨c1, w1, s1⟩
    have hticks : c1.internals.ticks = c.internals.ticks + 1 := by
      have := nodeTick_counted_ticks btick breset c w
      rw [hE] at this; exact this
    have hstat : c1.status = s1 := by
      have := nodeTick_fst_status (countedTick btick) (countedReset breset) c w
      rw [hE] at this; exact this
    by_cases hs : s1 = Status.failed
    · obtain ⟨cs2, w2, s, k, heq, m, hm, hlen, htake, hdrop, hlast⟩ := ih w1
      refine ⟨c1 :: cs2, w2, s, k + 1, ?_, m + 1, ?_, ?_, ?_, ?_, ?_⟩
      · simp [statefulSelGo, hE, hs, heq]
      · simpa using Nat.succ_le_succ hm
      · simp [hlen]
      · simp only [List.take_succ_cons]
        exact List.Forall₂.cons hticks htake
      · simp only [List.drop_succ_cons]
        exact hdrop
      · rcases hlast with ⟨h1, h2, h3⟩ | ⟨h1, h2, h3⟩
        · exact Or.inl ⟨h1, by simp [h2], by simp [h3, hstat, hs, List.replicate_succ]⟩
        · refine Or.inr ⟨h1, by omega, ?_⟩
          have hm1 : m + 1 - 1 = m := by omega
          have hm2 : m - 1 + 1 = m := by omega
          rw [List.take_succ_cons, List.map_cons, hstat, hs, h3, hm1,
            ← List.cons_append, ← List.replicate_succ, hm2]
    · have hgo : ∃ k,
          statefulSelGo (countedTick btick) (countedReset breset) (c :: rest) w =
            (c1 :: rest, w1, s1, k) := by
        by_cases hd : s1.isDone
        · exact ⟨1, by simp [statefulSelGo, hE, hs, hd]⟩
        · exact ⟨0, by simp [statefulSelGo, hE, hs, hd]⟩
      obtain ⟨k, hk⟩ := hgo
      refine ⟨c1 :: rest, w1, s1, k, hk, 1, by simp, by simp, ?_, ?_, ?_⟩
      · simp only [List.take_succ_cons, List.take_zero]
        exact List.Forall₂.cons hticks List.Forall₂.nil
      · simp [List.forall₂_same]
      · exact Or.inr ⟨hs, le_refl 1, by simp [hstat]⟩

/-- C6: on any tick of a stateless `Selector` (from its first child)
and of a `StatefulSelector` (from its resume index, with the children
to the left untouched), the children under scan are ticked in
declaration order, each exactly once, while each returns `Failed`; the
first child returning a non-`Failed` status ends the scan and that
status is returned, with every later child unticked (`Selector` only
resets them, `StatefulSelector` leaves them untouched); if every
scanned child fails the node fails. -/
theorem selector_scan_contract {B W : Type} (btick : B → W → B × W × Status)
    (breset : B → B) :
    (∀ (cs : List (NodeState (Counted B))) (w : W),
      ∃ cs2 w2 s,
        selectorTick (countedTick btick) (countedReset breset) cs w =
          (cs2, w2, s) ∧
        scanSpec Status.failed
          (fun a b => b = nodeReset (countedReset breset) a ∧
            b.internals.ticks = a.internals.ticks) cs cs2 s) ∧
    (∀ (st : StatefulSelState (Counted B)) (w : W),
      ∃ st2 w2 s,
        statefulSelectorTick (countedTick btick) (countedReset breset) st w =
          (st2, w2, s) ∧
        st2.children.take st.nextChild = st.children.take st.nextChild ∧
        scanSpec Status.failed (fun a b => b = a)
          (st.children.drop st.nextChild) (st2.children.drop st.nextChild) s) := by
  constructor
  · intro cs w
    obtain ⟨cs2, w2, s, heq, hspec⟩ := selGo_scan btick breset cs w
    exact ⟨cs2, w2, s, heq, hspec⟩
  · intro st w
    obtain ⟨cs2, w2, s, k, heq, hspec⟩ :=
      statefulSelGo_scan btick breset (st.children.drop st.nextChild) w
    refine ⟨⟨st.children.take st.nextChild ++ cs2, st.nextChild + k⟩, w2, s,
      by simp [statefulSelectorTick, heq], ?_, ?_⟩
    · by_cases hn : st.nextChild ≤ st.children.length
      · exact (take_append_take st.children cs2 st.nextChild hn).1
      · have hcs2 : cs2 = [] := by
          have hdrop : st.children.drop st.nextChild = [] :=
            List.drop_of_length_le (by omega)
          rw [hdrop] at heq
          simpa [statefulSelGo] using congrArg (fun p => p.1) heq
        simp [hcs2, List.take_take]
    · by_cases hn : st.nextChild ≤ st.children.length
      · rw [(take_append_take st.children cs2 st.nextChild hn).2]
        exact hspec
      · have hdrop : st.children.drop st.nextChild = [] :=
          List.drop_of_length_le (by omega)
        have hcs2 : cs2 = [] := by
          rw [hdrop] at heq
          simpa [statefulSelGo] using congrArg (fun p => p.1) heq
        subst hcs2
        have hres : (st.children.take st.nextChild ++
            ([] : List (NodeState (Counted B)))).drop st.nextChild = [] := by
          rw [List.append_nil]
          exact List.drop_of_length_le (by rw [List.length_take]; omega)
        rw [hres]
        exact hspec

/-- C6 witness: the `Selector` part of `selector_scan_contract` applied
to the sentinel example — first child ticks to `Failed`, second to
`Succeeded`, third is the sentinel. -/
theorem selector_scan_contract_witness :
    ∃ cs2 w2 s,
      selectorTick (countedTick fun (b : Status) (_ : Unit) => (b, (), b))
          (countedReset fun b => b)
          [⟨Status.initialized, ⟨Status.failed, 0, 0⟩⟩,
            ⟨Status.initialized, ⟨Status.succeeded, 0, 0⟩⟩,
            ⟨Status.initialized, ⟨Status.running, 7, 7⟩⟩] () =
        (cs2, w2, s) ∧
      scanSpec Status.failed
        (fun a b => b = nodeReset (countedReset fun b => b) a ∧
          b.internals.ticks = a.internals.ticks)
        [⟨Status.initialized, ⟨Status.failed, 0, 0⟩⟩,
          ⟨Status.initialized, ⟨Status.succeeded, 0, 0⟩⟩,
          ⟨Status.initialized, ⟨Status.running, 7, 7⟩⟩] cs2 s :=
  (selector_scan_contract (fun (b : Status) (_ : Unit) => (b, (), b))
    (fun b => b)).1
    [⟨Status.initialized, ⟨Status.failed, 0, 0⟩⟩,
      ⟨Status.initialized, ⟨Status.succeeded, 0, 0⟩⟩,
      ⟨Status.initialized, ⟨Status.running, 7, 7⟩⟩] ()

/-! ### Repeat (src/std_nodes/decorator/repeat.rs) -/

/-- Embeds `Repeat` internals (src/std_nodes/decorator/repeat.rs
`struct Repeat`): the child node, the optional attempt limit, and the
attempt counter. -/
structure RepeatState (C : Type) where
  child : NodeState C
  attemptLimit : Option Nat
  attempts : Nat
deriving DecidableEq, Repr

/-- Embeds `Repeat::tick` (src/std_nodes/decorator/repeat.rs lines 86-110):
without a limit, tick the child and report `Running`; with a limit,
tick the child and, if it completed, bump the attempt counter and
report `Succeeded` once the counter reaches the limit, `Running`
otherwise. -/
def repeatTick {C W : Type} (ctick : C → W → C × W × Status) (creset : C → C)
    (st : RepeatState C) (w : W) : RepeatState C × W × Status :=
  match st.attemptLimit with
  | none =>
    let r := nodeTick ctick creset st.child w
    ({ st with child := r.1 }, r.2.1, Status.running)
  | some limit =>
    let r := nodeTick ctick creset st.child w
    if r.2.2.isDone then
      if st.attempts + 1 < limit then
        (⟨r.1, some limit, st.attempts + 1⟩, r.2.1, Status.running)
      else
        (⟨r.1, some limit, st.attempts + 1⟩, r.2.1, Status.succeeded)
    else ({ st with child := r.1 }, r.2.1, Status.running)

/-- Embeds `Repeat::reset` (src/std_nodes/decorator/repeat.rs lines 112-119):
zero the attempt counter and reset the child node. -/
def repeatReset {C : Type} (creset : C → C) (st : RepeatState C) :
    RepeatState C :=
  { st with attempts := 0, child := nodeReset creset st.child }

/-- Embeds `Repeat::with_limit` (src/std_nodes/decorator/repeat.rs lines
74-82): a fresh `Node` wrapping `Repeat` internals with the given limit
and a zero attempt counter. -/
def repeatWithLimit {C : Type} (limit : Nat) (child : NodeState C) :
    NodeState (RepeatState C) :=
  ⟨Status.initialized, ⟨child, some limit, 0⟩⟩

/-- C7: evaluation of the code at the failing inputs.  Contrary to the
claim (and to the constructor's own doc comment, which promises that a
limit of zero "will instantly succeed"), `Repeat::with_limit(0, child)`
does tick its child on the first tick: with a child that stays
`Running` the node returns `Running` (not `Succeeded`) and the child's
tick was invoked once; even with a child that completes immediately the
node succeeds only after ticking the child once. -/
theorem repeat_limit_zero_ticks_child :
    ((nodeTick
        (repeatTick (countedTick fun (_ : Unit) (_ : Unit) => ((), (), Status.running))
          (countedReset fun b => b))
        (repeatReset (countedReset fun b => b))
        (repeatWithLimit 0 ⟨Status.initialized, ⟨(), 0, 0⟩⟩) ()).2.2 =
      Status.running ∧
     (nodeTick
        (repeatTick (countedTick fun (_ : Unit) (_ : Unit) => ((), (), Status.running))
          (countedReset fun b => b))
        (repeatReset (countedReset fun b => b))
        (repeatWithLimit 0 ⟨Status.initialized, ⟨(), 0, 0⟩⟩)
        ()).1.internals.child.internals.ticks = 1) ∧
    ((nodeTick
        (repeatTick (countedTick fun (_ : Unit) (_ : Unit) => ((), (), Status.failed))
          (countedReset fun b => b))
        (repeatReset (countedReset fun b => b))
        (repeatWithLimit 0 ⟨Status.initialized, ⟨(), 0, 0⟩⟩) ()).2.2 =
      Status.succeeded ∧
     (nodeTick
        (repeatTick (countedTick fun (_ : Unit) (_ : Unit) => ((), (), Status.failed))
          (countedReset fun b => b))
        (repeatReset (countedReset fun b => b))
        (repeatWithLimit 0 ⟨Status.initialized, ⟨(), 0, 0⟩⟩)
        ()).1.internals.child.internals.ticks = 1) := by
  refine ⟨⟨rfl, rfl⟩, rfl, rfl⟩

/-- One driver tick of the `Repeat(limit = 5, child-always-fails)`
demonstration node, returning the new node state and the reported
status. -/
def repeatDemoStep (n : NodeState (RepeatState (Counted Unit))) :
    NodeState (RepeatState (Counted Unit)) × Status :=
  let r := nodeTick
    (repeatTick (countedTick fun (_ : Unit) (_ : Unit) => ((), (), Status.failed))
      (countedReset fun b => b))
    (repeatReset (countedReset fun b => b)) n ()
  (r.1, r.2.2)

/-- The freshly constructed `Repeat(limit = 5, child-always-fails)`
node. -/
def repeatDemoStart : NodeState (RepeatState (Counted Unit)) :=
  repeatWithLimit 5 ⟨Status.initialized, ⟨(), 0, 0⟩⟩

/-- The five statuses reported by five consecutive ticks of the
demonstration node, together with the number of child-internals reset
invocations and child-internals tick invocations observed across those
five ticks. -/
def repeatDemoTrace : List Status × Nat × Nat :=
  let s1 := repeatDemoStep repeatDemoStart
  let s2 := repeatDemoStep s1.1
  let s3 := repeatDemoStep s2.1
  let s4 := repeatDemoStep s3.1
  let s5 := repeatDemoStep s4.1
  ([s1.2, s2.2, s3.2, s4.2, s5.2],
    s5.1.internals.child.internals.resets,
    s5.1.internals.child.internals.ticks)

/-- C8 counterexample: ticking `Repeat(child-always-fails, limit = 5)`
five times does return `Running` four times and then `Succeeded`, but
the child's internals reset is observed 4 times, not 5 as claimed (the
wrapper resets the child lazily, at the start of each tick after the
child completed, so the fifth completion is not followed by a reset
within these five ticks). -/
theorem repeat_five_resets_counterexample :
    repeatDemoTrace =
      ([Status.running, Status.running, Status.running, Status.running,
        Status.succeeded], 4, 5) ∧
    (4 : Nat) ≠ 5 := by
  refine ⟨by decide, by decide⟩

/-- C8 (amended): `Repeat(child-always-fails, limit = 5)` ticked five
times returns `Running` on each of the first four ticks and `Succeeded`
on the fifth; across those five ticks the child is ticked exactly 5
times and its internals' reset is observable exactly 4 times. -/
theorem repeat_five_trace :
    repeatDemoTrace.1 =
      [Status.running, Status.running, Status.running, Status.running,
        Status.succeeded] ∧
    repeatDemoTrace.2.1 = 4 ∧ repeatDemoTrace.2.2 = 5 := by
  refine ⟨by decide, by decide, by decide⟩

/-! ### UntilFail (src/std_nodes/decorator/until.rs) -/

/-- Embeds `UntilFail` internals (src/std_nodes/decorator/until.rs
`struct UntilFail`): the child node, the optional attempt limit, and
the attempt counter. -/
structure UntilFailState (C : Type) where
  child : NodeState C
  attemptLimit : Option Nat
  attempts : Nat
deriving DecidableEq, Repr

/-- Embeds `UntilFail::tick` (src/std_nodes/decorator/until.rs lines 104-135):
tick the child; a `Failed` child makes the node succeed immediately
(before any limit bookkeeping); otherwise, with a limit, a completed
child bumps the attempt counter and the node fails once the counter
reaches the limit, reporting `Running` in every other case. -/
def untilFailTick {C W : Type} (ctick : C → W → C × W × Status)
    (creset : C → C) (st : UntilFailState C) (w : W) :
    UntilFailState C × W × Status :=
  match st.attemptLimit with
  | none =>
    let r := nodeTick ctick creset st.child w
    if r.2.2 = Status.failed then
      ({ st with child := r.1 }, r.2.1, Status.succeeded)
    else ({ st with child := r.1 }, r.2.1, Status.running)
  | some limit =>
    let r := nodeTick ctick creset st.child w
    if r.2.2 = Status.failed then
      ({ st with child := r.1 }, r.2.1, Status.succeeded)
    else if r.2.2.isDone then
      if st.attempts + 1 < limit then
        (⟨r.1, some limit, st.attempts + 1⟩, r.2.1, Status.running)
      else
        (⟨r.1, some limit, st.attempts + 1⟩, r.2.1, Status.failed)
    else ({ st with child := r.1 }, r.2.1, Status.running)

/-- C9: on any tick of an `UntilFail` node (with or without a limit),
if the child's tick returns `Failed` the node returns `Succeeded` —
unconditionally, even on the tick that would exhaust the attempt limit;
with a limit set, a child completion other than `Failed` returns
`Failed` exactly when it exhausts the limit and `Running` before that;
while the child does not complete (and, without a limit, whenever the
child does not fail) the node returns `Running`. -/
theorem until_fail_tick_contract {C W : Type} (ctick : C → W → C × W × Status)
    (creset : C → C) (st : UntilFailState C) (w : W) :
    ((nodeTick ctick creset st.child w).2.2 = Status.failed →
      (untilFailTick ctick creset st w).2.2 = Status.succeeded) ∧
    (∀ limit, st.attemptLimit = some limit →
      (nodeTick ctick creset st.child w).2.2 ≠ Status.failed →
      (nodeTick ctick creset st.child w).2.2.isDone = true →
      ((st.attempts + 1 < limit →
          (untilFailTick ctick creset st w).2.2 = Status.running) ∧
        (limit ≤ st.attempts + 1 →
          (untilFailTick ctick creset st w).2.2 = Status.failed))) ∧
    ((nodeTick ctick creset st.child w).2.2.isDone = false →
      (untilFailTick ctick creset st w).2.2 = Status.running) ∧
    (st.attemptLimit = none →
      (nodeTick ctick creset st.child w).2.2 ≠ Status.failed →
      (untilFailTick ctick creset st w).2.2 = Status.running) := by
  obtain ⟨child, lim, att⟩ := st
  rcases hE : nodeTick ctick creset child w with ⟨c1, w1, s1⟩
  cases lim with
  | none =>
    refine ⟨?_, ?_, ?_, ?_⟩
    · intro h
      have hs : s1 = Status.failed := h
      simp [untilFailTick, hE, hs]
    · intro limit hlim; cases hlim
    · intro h
      have hd : s1.isDone = false := h
      have hne : s1 ≠ Status.failed := by
        intro hc; rw [hc] at hd; simp [Status.isDone] at hd
      simp [untilFailTick, hE, hne]
    · intro _ h
      have hne : s1 ≠ Status.failed := h
      simp [untilFailTick, hE, hne]
  | some limit =>
    refine ⟨?_, ?_, ?_, ?_⟩
    · intro h
      have hs : s1 = Status.failed := h
      simp [untilFailTick, hE, hs]
    · intro l hl hne hdone
      have hne1 : s1 ≠ Status.failed := hne
      have hdone1 : s1.isDone = true := hdone
      cases hl
      constructor
      · intro hlt
        simp [untilFailTick, hE, hne1, hdone1, hlt]
      · intro hge
        have hge1 : limit ≤ att + 1 := hge
        have hnlt : ¬(att + 1 < limit) := by omega
        simp [untilFailTick, hE, hne1, hdone1, hnlt]
    · intro h
      have hd : s1.isDone = false := h
      have hne : s1 ≠ Status.failed := by
        intro hc; rw [hc] at hd; simp [Status.isDone] at hd
      simp [untilFailTick, hE, hne, hd]
    · intro hl; cases hl

/-- C9 witness: a limit-2 `UntilFail` whose child fails on the very
tick that exhausts the limit still succeeds (the short-circuit wins),
and with a child that completes successfully the limit-exhausting tick
fails. -/
theorem until_fail_tick_contract_witness :
    ((nodeTick (countedTick fun (_ : Unit) (_ : Unit) => ((), (), Status.failed))
        (countedReset fun b => b) ⟨Status.initialized, ⟨(), 0, 0⟩⟩ ()).2.2 =
      Status.failed ∧
      (untilFailTick (countedTick fun (_ : Unit) (_ : Unit) => ((), (), Status.failed))
        (countedReset fun b => b)
        ⟨⟨Status.initialized, ⟨(), 0, 0⟩⟩, some 2, 1⟩ ()).2.2 = Status.succeeded) ∧
    ((2 : Nat) ≤ 1 + 1 ∧
      (untilFailTick (countedTick fun (_ : Unit) (_ : Unit) => ((), (), Status.succeeded))
        (countedReset fun b => b)
        ⟨⟨Status.initialized, ⟨(), 0, 0⟩⟩, some 2, 1⟩ ()).2.2 = Status.failed) := by
  refine ⟨⟨by decide, ?_⟩, ⟨by decide, ?_⟩⟩
  · exact (until_fail_tick_contract
      (countedTick fun (_ : Unit) (_ : Unit) => ((), (), Status.failed))
      (countedReset fun b => b)
      ⟨⟨Status.initialized, ⟨(), 0, 0⟩⟩, some 2, 1⟩ ()).1 (by decide)
  · exact ((until_fail_tick_contract
      (countedTick fun (_ : Unit) (_ : Unit) => ((), (), Status.succeeded))
      (countedReset fun b => b)
      ⟨⟨Status.initialized, ⟨(), 0, 0⟩⟩, some 2, 1⟩ ()).2.1 2 rfl
      (by decide) (by decide)).2 (by decide)

end Aspen
